import Mathlib

/-!
Verification of the distributed trial-execution subsystem described by the
repository's design document, against the example script
`examples/plot_simulate_somato.py`.  The script builds a `Network` from the
`N20.json` parameter set, attaches three evoked drives (`evdist1`, `evdist2`,
`evprox1`), and runs `simulate_dipole` under an `MPIBackend` with 6 worker
processes, finally averaging the per-trial dipoles with `average_dipoles`.

The library functions called by the script (`simulate_dipole`,
`average_dipoles`, `MPIBackend`, the per-drive seed policy, the result
aggregation) are not part of the sources available here, so they are modelled
from the design document (sections 3, 4, 5, 7 and 8); the script's own
construction of the network, the drives and the call sites is embedded
directly from the script text.  Time series are modelled over `ℚ` so that the
arithmetic of the reduction is exact.
-/

/-! ## TrialSeedPolicy (spec section 4.1) -/

/-- Injective encoding of a character list into `ℕ`, used by the seed policy
to mix a drive name into the derived seed.  Each cons is encoded with the
Cantor-style pairing function `Nat.pair`, shifted by one so that the empty
list (encoded as `0`) is never confused with a cons. -/
def encodeChars : List Char → Nat
  | [] => 0
  | c :: cs => Nat.pair c.toNat (encodeChars cs) + 1

/-- Injective encoding of a drive name into `ℕ`. -/
def encodeName (s : String) : Nat :=
  encodeChars s.data

/-- Modelled from the spec: `TrialSeedPolicy.derive(base_seed, trial_index,
drive_name) -> seed`, a "deterministic, collision-resistant function (e.g., a
stable hash or linear-congruential combination)" — the implementation of the
seed policy is not among the available sources.  Modelled as an injective
pairing of the base seed, the trial index and the drive name, so that
distinct `(trial_index, drive_name)` pairs yield distinct seeds even when two
drives share the same base seed. -/
def derive (base_seed trial_index : Nat) (drive_name : String) : Nat :=
  Nat.pair base_seed (Nat.pair trial_index (encodeName drive_name))

/-! ## Data model (spec section 3) -/

/-- Status of one trial: `success | failed | timed-out` (spec section 3,
`TrialResult`). -/
inductive Status where
  | success
  | failed
  | timedOut
deriving DecidableEq, Repr

/-- `TrialResult` (spec section 3): trial index, a uniformly time-stepped
series of scalar samples (represented by the step `dt` and the sample list),
and a status.  Auxiliary spike records are irrelevant to the aggregation
claims and are omitted. -/
structure TrialResult where
  idx : Nat
  dt : ℚ
  series : List ℚ
  status : Status
deriving DecidableEq, Repr

/-- The shape of a trial's time series: its length and its sample step.
Aggregation is defined only across results of identical shape. -/
def shapeOf (r : TrialResult) : Nat × ℚ :=
  (r.series.length, r.dt)

/-- Whether a trial result is a success. -/
def TrialResult.isSuccess (r : TrialResult) : Bool :=
  match r.status with
  | Status.success => true
  | _ => false

/-- `AggregateResult` (spec section 3): the element-wise mean series, the
count of trials included, the set of failed trial indices, and the set of
trial indices rejected by the aggregator with a `ShapeMismatch` error. -/
structure AggregateResult where
  mean : List ℚ
  dt : ℚ
  count : Nat
  failed : Finset Nat
  shapeMismatches : Finset Nat
deriving DecidableEq

/-- Error taxonomy of the subsystem (spec section 7) restricted to the hard
errors that can surface out of `run`; per-trial failures and shape mismatches
are recovered locally and recorded, never raised. -/
inductive AggError where
  | InvalidConfig
  | ResourceExhausted
  | InsufficientTrials
deriving DecidableEq, Repr

/-! ## ResultAggregator (spec section 4.4)

The aggregator collects per-trial results keyed by trial index and reduces
them with a stable, sorted-by-index accumulation (the summation order the
spec itself suggests), so that the numeric result depends only on the set of
collected results and not on their arrival order. -/

/-- Order on trial results by trial index: the aggregator's stable
accumulation order. -/
def keyLe (a b : TrialResult) : Prop :=
  a.idx ≤ b.idx

instance : DecidableRel keyLe :=
  fun a b => Nat.decLe a.idx b.idx

instance : IsTotal TrialResult keyLe :=
  ⟨fun a b => Nat.le_total a.idx b.idx⟩

instance : IsTrans TrialResult keyLe :=
  ⟨fun _ _ _ h₁ h₂ => Nat.le_trans h₁ h₂⟩

/-- Results sorted by trial index — the aggregator's canonical presentation
of the collected result set. -/
def sortByIdx (rs : List TrialResult) : List TrialResult :=
  rs.insertionSort keyLe

/-- The successful results among a result list, in order. -/
def succOf (l : List TrialResult) : List TrialResult :=
  l.filter TrialResult.isSuccess

/-- The reference shape of an aggregation: the shape of the successful result
with the least trial index (`none` when no trial succeeded). -/
def refShape (rs : List TrialResult) : Option (Nat × ℚ) :=
  (succOf (sortByIdx rs)).head?.map shapeOf

/-- The successful results actually included in the aggregate: those whose
series shape agrees with the reference shape. -/
def includedRs (rs : List TrialResult) : List TrialResult :=
  match refShape rs with
  | none => []
  | some sh => (succOf (sortByIdx rs)).filter (fun r => decide (shapeOf r = sh))

/-- The successful results excluded from the aggregate with a `ShapeMismatch`
error: their series shape disagrees with the reference shape. -/
def shapeRejectedRs (rs : List TrialResult) : List TrialResult :=
  match refShape rs with
  | none => []
  | some sh => (succOf (sortByIdx rs)).filter (fun r => decide (shapeOf r ≠ sh))

/-- The non-successful (failed or timed-out) results. -/
def failedRs (rs : List TrialResult) : List TrialResult :=
  (sortByIdx rs).filter (fun r => !r.isSuccess)

/-- Element-wise mean of the series of a result list, over a common length
`len`: sample `i` of the mean is the sum of the `i`-th samples divided by the
number of results. -/
def meanSeries (inc : List TrialResult) (len : Nat) : List ℚ :=
  (List.range len).map (fun i => (inc.map (fun r => r.series.getD i 0)).sum / inc.length)

/-- Modelled from the spec: `ResultAggregator.finalize(min_required) ->
AggregateResult` — the aggregator implementation is not among the available
sources.  Fails with `InsufficientTrials` when fewer than `min_required`
compatible successful results are present; otherwise returns the sample mean
over the included results together with the failure and shape-mismatch
records. -/
def finalize (min_required : Nat) (rs : List TrialResult) : Except AggError AggregateResult :=
  if (includedRs rs).length < min_required then
    Except.error AggError.InsufficientTrials
  else
    Except.ok
      { mean := meanSeries (includedRs rs) ((refShape rs).elim 0 Prod.fst)
        dt := (refShape rs).elim 0 Prod.snd
        count := (includedRs rs).length
        failed := ((failedRs rs).map TrialResult.idx).toFinset
        shapeMismatches := ((shapeRejectedRs rs).map TrialResult.idx).toFinset }

/-- Modelled from the spec and the script's call `average_dipoles(dpls)`: the
element-wise mean of a list of per-trial dipole series (each a pair of sample
step and sample list), defined over the length of the first series.  The
implementation of `average_dipoles` is not among the available sources. -/
def average_dipoles (dpls : List (ℚ × List ℚ)) : ℚ × List ℚ :=
  match dpls with
  | [] => (0, [])
  | d :: _ =>
    (d.1, (List.range d.2.length).map
      (fun i => (dpls.map (fun e => e.2.getD i 0)).sum / dpls.length))

/-! ## NetworkConfig, DriveSpec and the script's network (spec section 3,
script lines 101–130) -/

/-- `DriveSpec` (spec section 3): the exact fields the script passes to
`net.add_evoked_drive` — name, onset mean and spread, event count, the
within-trial synchronization flag, per-population AMPA and NMDA weight maps,
a location tag, per-population synaptic delays, and the base seed
(`seedcore`). -/
structure DriveSpec where
  name : String
  mu : ℚ
  sigma : ℚ
  numspikes : Nat
  sync_within_trial : Bool
  weights_ampa : List (String × ℚ)
  weights_nmda : List (String × ℚ)
  location : String
  synaptic_delays : List (String × ℚ)
  seedcore : Nat
deriving DecidableEq, Repr

/-- Spike-event records of a whole run, read by the script through
`net.cell_response` after `simulate_dipole` returns; modelled as the list of
trial indices whose events were recorded. -/
structure CellResponse where
  trials : List Nat
deriving DecidableEq, Repr

/-- The `Network` object the script constructs: the parameter file it was
read from, the attached drives, and the `cell_response` slot that the script
reads after simulation (`none` until a simulation has filled it). -/
structure Network where
  params_file : String
  drives : List DriveSpec
  cell_response : Option CellResponse
deriving DecidableEq, Repr

/-- `net.add_evoked_drive(name, mu, sigma, numspikes, sync_within_trial,
weights_ampa, weights_nmda, location, synaptic_delays, seedcore)`: appends
one evoked `DriveSpec` to the network (script lines 111–130). -/
def Network.add_evoked_drive (net : Network) (name : String) (mu sigma : ℚ)
    (numspikes : Nat) (sync_within_trial : Bool)
    (weights_ampa weights_nmda : List (String × ℚ)) (location : String)
    (synaptic_delays : List (String × ℚ)) (seedcore : Nat) : Network :=
  { net with drives := net.drives ++
      [⟨name, mu, sigma, numspikes, sync_within_trial, weights_ampa,
        weights_nmda, location, synaptic_delays, seedcore⟩] }

/-- Script lines 104–109: the shared distal connection parameters. -/
def weights_ampa_d : List (String × ℚ) :=
  [("L2_basket", 0.003), ("L2_pyramidal", 0.0045), ("L5_pyramidal", 0.001)]

/-- Script lines 106–107. -/
def weights_nmda_d : List (String × ℚ) :=
  [("L2_basket", 0.003), ("L2_pyramidal", 0.0045), ("L5_pyramidal", 0.001)]

/-- Script lines 108–109. -/
def synaptic_delays_d : List (String × ℚ) :=
  [("L2_basket", 0.1), ("L2_pyramidal", 0.1), ("L5_pyramidal", 0.1)]

/-- Script lines 122–123: the proximal connection parameters. -/
def weights_ampa_p : List (String × ℚ) :=
  [("L2_basket", 0.003), ("L2_pyramidal", 0.0025), ("L5_basket", 0.004),
   ("L5_pyramidal", 0.001)]

/-- Script line 124. -/
def weights_nmda_p : List (String × ℚ) :=
  [("L2_basket", 0.003), ("L5_basket", 0.004)]

/-- Script lines 125–126. -/
def synaptic_delays_p : List (String × ℚ) :=
  [("L2_basket", 0.1), ("L2_pyramidal", 0.1), ("L5_basket", 1.0),
   ("L5_pyramidal", 1.0)]

/-- The network the script builds (lines 101–130): `Network(params)` from
`N20.json`, then the three evoked drives `evdist1` (seedcore 6), `evdist2`
(seedcore 2) and `evprox1` (seedcore 6), in script order. -/
def somatoNet : Network :=
  ((((Network.mk "N20.json" [] none).add_evoked_drive
      "evdist1" 32 3 1 true weights_ampa_d weights_nmda_d "distal"
      synaptic_delays_d 6).add_evoked_drive
      "evdist2" 82 3 1 true weights_ampa_d weights_nmda_d "distal"
      synaptic_delays_d 2).add_evoked_drive
      "evprox1" 20 3 1 true weights_ampa_p weights_nmda_p "proximal"
      synaptic_delays_p 6)

/-! ## TrialRunner and the run operation (spec sections 4.2, 4.3, 4.5) -/

/-- The biophysics collaborator (spec section 6): given a network
configuration and a concrete per-drive seed assignment, returns the sample
step and the sample list of one trial's dipole.  Required by the spec to be
deterministic given identical inputs, which holds of any Lean function. -/
def Engine : Type :=
  Network → List Nat → ℚ × List ℚ

/-- The per-drive seed assignment of one trial: one derived seed per drive of
the configuration, a pure function of base seed, trial index and drive name
(spec section 3, `TrialJob`). -/
def seedsFor (net : Network) (t : Nat) : List Nat :=
  net.drives.map (fun d => derive d.seedcore t d.name)

/-- An engine has uniform shape on a configuration when the length and the
sample step of its output do not depend on the seed assignment (they are
fixed by the configuration's simulation-duration parameters). -/
def ShapeUniform (engine : Engine) (net : Network) : Prop :=
  ∀ s₁ s₂ : List Nat,
    (engine net s₁).2.length = (engine net s₂).2.length ∧
    (engine net s₁).1 = (engine net s₂).1

/-- Modelled from the spec: `TrialRunner` (section 4.3) plus the worker-crash
containment of section 4.2 — the worker implementation is not among the
available sources.  A crash of the worker running trial `t` (membership of
`t` in the injected fault set) is captured and surfaces as a `failed`
`TrialResult` for that job; otherwise the trial runs the engine on the
configuration with the trial's derived seeds and reports `success`. -/
def runTrial (engine : Engine) (net : Network) (faults : Finset Nat)
    (t : Nat) : TrialResult :=
  if t ∈ faults then
    ⟨t, 0, [], Status.failed⟩
  else
    ⟨t, (engine net (seedsFor net t)).1, (engine net (seedsFor net t)).2,
      Status.success⟩

/-- Modelled from the spec: `SimulationSession.run(n_trials, pool_size,
min_required) -> AggregateResult` (section 4.5) — the session implementation
is not among the available sources.  The pool executes one job per trial
(jobs queue when `pool_size < n_trials`, which cannot affect the result);
`order` is the arrival order of the trial results at the aggregator, and
`faults` the set of trials whose worker is made to crash.  The collected
results are reduced by `finalize`. -/
def run (engine : Engine) (net : Network) (n_trials pool_size min_required : Nat)
    (faults : Finset Nat) (order : List Nat) : Except AggError AggregateResult :=
  let _ := pool_size
  let _ := n_trials
  finalize min_required (order.map (runTrial engine net faults))

/-- Modelled from the spec and the script (lines 134–141):
`simulate_dipole(net, n_trials)` runs every trial of `0..n_trials-1`
fault-free and returns the per-trial results together with the post-call
network, whose `cell_response` has been filled with the recorded spike
events of all trials — the script reads `net.cell_response` only after this
call. -/
def simulate_dipole (engine : Engine) (net : Network) (n_trials : Nat) :
    List TrialResult × Network :=
  let results := (List.range n_trials).map (runTrial engine net ∅)
  (results, { net with cell_response := some ⟨results.map TrialResult.idx⟩ })

/-! ## WorkerPool scope (spec sections 4.2, 5; script line 134) -/

/-- Worker-resource events of a pool's lifetime. -/
inductive PoolEvent where
  | acquired (n : Nat)
  | released (n : Nat)
deriving DecidableEq, Repr

/-- Net number of workers still held after a trace of pool events. -/
def netWorkers (tr : List PoolEvent) : Int :=
  tr.foldl
    (fun acc e =>
      match e with
      | PoolEvent.acquired n => acc + n
      | PoolEvent.released n => acc - n) 0

/-- Modelled from the spec: the scoped worker-pool acquisition of
`start(pool_size)` (section 4.2) and the script's `MPIBackend(n_procs=6)`
context manager — the backend implementation is not among the available
sources.  Acquisition fails with `ResourceExhausted` when fewer than `size`
workers can be provisioned; otherwise the body runs (returning a value or an
error) and the workers are released on both exit paths.  Returns the body's
outcome and the trace of pool events. -/
def withPool {A : Type} (size avail : Nat) (body : Except AggError A) :
    Except AggError A × List PoolEvent :=
  if size ≤ avail then
    (body, [PoolEvent.acquired size, PoolEvent.released size])
  else
    (Except.error AggError.ResourceExhausted, [])

/-! ## The script's call site (script lines 132–135) -/

/-- Script line 133: the local variable assignment `n_trials = 1` (line 132
is the comment `# n_trials = 25`). -/
def script_n_trials : Nat := 1

/-- Script line 135: the call `simulate_dipole(net, n_trials=25)` — the
trial count passed is the literal `25`; the value of the local variable
`n_trials` does not occur in the call, so the dispatch count is constant in
it. -/
def scriptDispatchCount (n_trials_local : Nat) : Nat :=
  let _ := n_trials_local
  25

/-- A concrete deterministic engine used to instantiate the theorems on
closed inputs: a single-sample dipole whose value is the sum of the derived
seeds. -/
def toyEngine : Engine :=
  fun _ seeds => (1, [((seeds.sum : Nat) : ℚ)])

/-- A concrete result set with two successes and one failure, used to
instantiate the aggregator theorems on closed inputs. -/
def sampleResults : List TrialResult :=
  [⟨0, 1, [1], Status.success⟩, ⟨1, 1, [3], Status.success⟩,
   ⟨2, 1, [], Status.failed⟩]

/-- A concrete result set of two successes, used to instantiate the
permutation-invariance theorem on closed inputs. -/
def succPair : List TrialResult :=
  [⟨0, 1, [1], Status.success⟩, ⟨1, 1, [3], Status.success⟩]

/-- A concrete result set whose second success has a shorter series than the
first, used to instantiate the shape-mismatch theorem on closed inputs. -/
def mixedShapeResults : List TrialResult :=
  [⟨0, 1, [1, 2], Status.success⟩, ⟨1, 1, [5], Status.success⟩]

/-! ## Lemmas: seed policy -/

theorem encodeChars_injective : Function.Injective encodeChars := by
  intro l₁
  induction l₁ with
  | nil =>
    intro l₂ h
    cases l₂ with
    | nil => rfl
    | cons c cs => simp [encodeChars] at h
  | cons c cs ih =>
    intro l₂ h
    cases l₂ with
    | nil => simp [encodeChars] at h
    | cons d ds =>
      simp only [encodeChars, Nat.add_right_cancel_iff] at h
      obtain ⟨h₁, h₂⟩ := Nat.pair_eq_pair.mp h
      have hc : c = d := by
        apply Char.eq_of_val_eq
        apply UInt32.eq_of_toBitVec_eq
        exact BitVec.eq_of_toNat_eq h₁
      rw [hc, ih h₂]

theorem encodeName_injective : Function.Injective encodeName := by
  intro s₁ s₂ h
  have hd : s₁.data = s₂.data := encodeChars_injective h
  cases s₁
  cases s₂
  exact congrArg String.mk hd

theorem derive_inj {b t₁ t₂ : Nat} {n₁ n₂ : String}
    (h : derive b t₁ n₁ = derive b t₂ n₂) : t₁ = t₂ ∧ n₁ = n₂ := by
  unfold derive at h
  obtain ⟨-, h⟩ := Nat.pair_eq_pair.mp h
  obtain ⟨ht, hn⟩ := Nat.pair_eq_pair.mp h
  exact ⟨ht, encodeName_injective hn⟩

/-! ## Lemmas: sorted-by-index accumulation -/

theorem sortByIdx_perm (rs : List TrialResult) : (sortByIdx rs).Perm rs :=
  List.perm_insertionSort keyLe rs

theorem sortByIdx_sorted (rs : List TrialResult) : List.Sorted keyLe (sortByIdx rs) :=
  List.sorted_insertionSort keyLe rs

theorem eq_of_perm_of_sorted_nodupIdx {l₁ l₂ : List TrialResult} (hp : l₁.Perm l₂)
    (hs₁ : List.Sorted keyLe l₁) (hs₂ : List.Sorted keyLe l₂)
    (hn : (l₁.map TrialResult.idx).Nodup) : l₁ = l₂ := by
  induction l₁ generalizing l₂ with
  | nil => exact hp.nil_eq
  | cons a t₁ ih =>
    cases l₂ with
    | nil => simpa using hp.eq_nil
    | cons b t₂ =>
      have hnc : a.idx ∉ t₁.map TrialResult.idx ∧ (t₁.map TrialResult.idx).Nodup := by
        simpa using hn
      have hab : a = b := by
        have hbmem : b ∈ a :: t₁ := hp.mem_iff.mpr (List.mem_cons_self b t₂)
        have hamem : a ∈ b :: t₂ := hp.subset (List.mem_cons_self a t₁)
        rcases List.mem_cons.mp hbmem with h1 | h1
        · exact h1.symm
        rcases List.mem_cons.mp hamem with h2 | h2
        · exact h2
        have hle1 : a.idx ≤ b.idx := (List.sorted_cons.mp hs₁).1 b h1
        have hle2 : b.idx ≤ a.idx := (List.sorted_cons.mp hs₂).1 a h2
        exact absurd ((Nat.le_antisymm hle1 hle2) ▸ List.mem_map_of_mem TrialResult.idx h1)
          hnc.1
      subst hab
      have ht := ih hp.cons_inv (List.sorted_cons.mp hs₁).2 (List.sorted_cons.mp hs₂).2 hnc.2
      rw [ht]

theorem sortByIdx_eq_of_perm {rs₁ rs₂ : List TrialResult} (hp : rs₁.Perm rs₂)
    (hn : (rs₁.map TrialResult.idx).Nodup) : sortByIdx rs₁ = sortByIdx rs₂ := by
  apply eq_of_perm_of_sorted_nodupIdx
    (((sortByIdx_perm rs₁).trans hp).trans (sortByIdx_perm rs₂).symm)
    (sortByIdx_sorted rs₁) (sortByIdx_sorted rs₂)
  exact (((sortByIdx_perm rs₁).map TrialResult.idx).nodup_iff).mpr hn

theorem finalize_congr {rs₁ rs₂ : List TrialResult} (m : Nat)
    (h : sortByIdx rs₁ = sortByIdx rs₂) : finalize m rs₁ = finalize m rs₂ := by
  have hr : refShape rs₁ = refShape rs₂ := by unfold refShape; rw [h]
  unfold finalize includedRs shapeRejectedRs failedRs
  rw [hr, h]

/-! ## Lemmas: the dispatched result list -/

theorem filter_map_comm {α β : Type} (f : α → β) (p : β → Bool) (l : List α) :
    (l.map f).filter p = (l.filter (fun a => p (f a))).map f := by
  induction l with
  | nil => rfl
  | cons a l ih =>
    by_cases h : p (f a) = true
    · simp [List.filter, h, ih]
    · simp only [Bool.not_eq_true] at h
      simp [List.filter, h, ih]

theorem runTrial_idx (engine : Engine) (net : Network) (faults : Finset Nat)
    (t : Nat) : (runTrial engine net faults t).idx = t := by
  unfold runTrial
  split <;> rfl

theorem runTrial_isSuccess (engine : Engine) (net : Network) (faults : Finset Nat)
    (t : Nat) : (runTrial engine net faults t).isSuccess = !(decide (t ∈ faults)) := by
  unfold runTrial
  split <;> simp_all [TrialResult.isSuccess]

theorem sortByIdx_map_range (engine : Engine) (net : Network) (faults : Finset Nat)
    {order : List Nat} {n : Nat} (h : order.Perm (List.range n)) :
    sortByIdx (order.map (runTrial engine net faults)) =
      (List.range n).map (runTrial engine net faults) := by
  have hperm : (order.map (runTrial engine net faults)).Perm
      ((List.range n).map (runTrial engine net faults)) := h.map _
  have hidx : ∀ l : List Nat,
      (l.map (runTrial engine net faults)).map TrialResult.idx = l := by
    intro l
    rw [List.map_map]
    have : (TrialResult.idx ∘ runTrial engine net faults) = id := by
      funext t
      exact runTrial_idx engine net faults t
    rw [this, List.map_id]
  have hnodup : ((order.map (runTrial engine net faults)).map TrialResult.idx).Nodup := by
    rw [hidx]
    exact (h.nodup_iff).mpr (List.nodup_range n)
  have hsorted : List.Sorted keyLe ((List.range n).map (runTrial engine net faults)) := by
    rw [List.Sorted, List.pairwise_map]
    have hlt : (List.range n).Pairwise (· < ·) := List.pairwise_lt_range n
    refine hlt.imp ?_
    intro a b hab
    show (runTrial engine net faults a).idx ≤ (runTrial engine net faults b).idx
    rw [runTrial_idx, runTrial_idx]
    exact Nat.le_of_lt hab
  calc sortByIdx (order.map (runTrial engine net faults))
      = sortByIdx ((List.range n).map (runTrial engine net faults)) :=
        sortByIdx_eq_of_perm hperm hnodup
    _ = (List.range n).map (runTrial engine net faults) :=
        List.Sorted.insertionSort_eq hsorted

theorem succ_map_range (engine : Engine) (net : Network) (faults : Finset Nat)
    (n : Nat) :
    succOf ((List.range n).map (runTrial engine net faults)) =
      ((List.range n).filter (fun t => !(decide (t ∈ faults)))).map
        (runTrial engine net faults) := by
  unfold succOf
  rw [filter_map_comm]
  congr 1
  apply List.filter_congr
  intro t _
  exact runTrial_isSuccess engine net faults t

theorem failed_map_range (engine : Engine) (net : Network) (faults : Finset Nat)
    (n : Nat) :
    ((List.range n).map (runTrial engine net faults)).filter
        (fun r => !r.isSuccess) =
      ((List.range n).filter (fun t => decide (t ∈ faults))).map
        (runTrial engine net faults) := by
  rw [filter_map_comm]
  congr 1
  apply List.filter_congr
  intro t _
  rw [runTrial_isSuccess]
  cases h : decide (t ∈ faults) <;> rfl

theorem range_filter_ne_length {n f : Nat} (h : f < n) :
    ((List.range n).filter (fun t => !(decide (t ∈ ({f} : Finset Nat))))).length
      = n - 1 := by
  have hpred : ∀ t : Nat, (!(decide (t ∈ ({f} : Finset Nat)))) = decide (t ≠ f) := by
    intro t
    by_cases ht : t = f <;> simp [ht]
  simp only [hpred]
  induction n with
  | zero => exact absurd h (Nat.not_lt_zero f)
  | succ n ih =>
    rw [List.range_succ, List.filter_append, List.length_append]
    rcases Nat.lt_or_ge f n with hf | hf
    · rw [ih hf]
      have hne : n ≠ f := Nat.ne_of_gt hf
      simp only [List.filter, hne, decide_eq_true_eq, if_true]
      simp [hne]
      omega
    · have hfn : f = n := Nat.le_antisymm (Nat.lt_succ_iff.mp h) hf
      subst hfn
      have hall : (List.range f).filter (fun t => decide (t ≠ f)) = List.range f := by
        apply List.filter_eq_self.mpr
        intro a ha
        simp only [decide_eq_true_eq]
        exact Nat.ne_of_lt (List.mem_range.mp ha)
      rw [hall]
      simp

theorem range_filter_eq_singleton {n f : Nat} (h : f < n) :
    (List.range n).filter (fun t => decide (t ∈ ({f} : Finset Nat))) = [f] := by
  have hpred : ∀ t : Nat, (decide (t ∈ ({f} : Finset Nat))) = decide (t = f) := by
    intro t
    by_cases ht : t = f <;> simp [ht]
  simp only [hpred]
  induction n with
  | zero => exact absurd h (Nat.not_lt_zero f)
  | succ n ih =>
    rw [List.range_succ, List.filter_append]
    rcases Nat.lt_or_ge f n with hf | hf
    · rw [ih hf]
      have hne : n ≠ f := Nat.ne_of_gt hf
      simp [hne]
    · have hfn : f = n := Nat.le_antisymm (Nat.lt_succ_iff.mp h) hf
      subst hfn
      have hnone : (List.range f).filter (fun t => decide (t = f)) = [] := by
        apply List.filter_eq_nil_iff.mpr
        intro a ha
        simp only [decide_eq_true_eq]
        exact Nat.ne_of_lt (List.mem_range.mp ha)
      rw [hnone]
      simp

theorem range_filter_none (n : Nat) :
    (List.range n).filter (fun t => !(decide (t ∈ (∅ : Finset Nat)))) =
      List.range n := by
  apply List.filter_eq_self.mpr
  intro a _
  simp

/-! ## Lemmas: shape handling in the aggregator -/

theorem mem_succOf_sortByIdx {rs : List TrialResult} {r : TrialResult}
    (hr : r ∈ succOf (sortByIdx rs)) : r ∈ rs ∧ r.isSuccess = true := by
  obtain ⟨h₁, h₂⟩ := List.mem_filter.mp hr
  exact ⟨(sortByIdx_perm rs).mem_iff.mp h₁, h₂⟩

theorem includedRs_of_uniform {rs : List TrialResult}
    (h : ∀ r₁ ∈ rs, ∀ r₂ ∈ rs, r₁.isSuccess = true → r₂.isSuccess = true →
      shapeOf r₁ = shapeOf r₂) :
    includedRs rs = succOf (sortByIdx rs) ∧ shapeRejectedRs rs = [] := by
  unfold includedRs shapeRejectedRs refShape
  cases hsucc : (succOf (sortByIdx rs)).head? with
  | none =>
    have hnil : succOf (sortByIdx rs) = [] := List.head?_eq_none_iff.mp hsucc
    simp [hnil]
  | some a =>
    have ha : a ∈ succOf (sortByIdx rs) := by
      cases hl : succOf (sortByIdx rs) with
      | nil => rw [hl] at hsucc; simp at hsucc
      | cons b l =>
        rw [hl] at hsucc
        simp only [List.head?_cons, Option.some.injEq] at hsucc
        rw [hsucc]
        exact List.mem_cons_self a l
    simp only [Option.map_some']
    constructor
    · apply List.filter_eq_self.mpr
      intro r hr
      have := h r (mem_succOf_sortByIdx hr).1 a (mem_succOf_sortByIdx ha).1
        (mem_succOf_sortByIdx hr).2 (mem_succOf_sortByIdx ha).2
      simp [this]
    · apply List.filter_eq_nil_iff.mpr
      intro r hr
      have := h r (mem_succOf_sortByIdx hr).1 a (mem_succOf_sortByIdx ha).1
        (mem_succOf_sortByIdx hr).2 (mem_succOf_sortByIdx ha).2
      simp [this]

theorem runTrial_not_fault {engine : Engine} {net : Network} {faults : Finset Nat}
    {t : Nat} (hs : (runTrial engine net faults t).isSuccess = true) :
    t ∉ faults := by
  intro hmem
  rw [runTrial_isSuccess] at hs
  simp [hmem] at hs

theorem runTrial_success_eq {engine : Engine} {net : Network} {faults : Finset Nat}
    {t : Nat} (ht : t ∉ faults) :
    runTrial engine net faults t =
      ⟨t, (engine net (seedsFor net t)).1, (engine net (seedsFor net t)).2,
        Status.success⟩ := by
  unfold runTrial
  rw [if_neg ht]

theorem uniform_of_shapeUniform {engine : Engine} {net : Network}
    (hu : ShapeUniform engine net) (faults : Finset Nat) (order : List Nat) :
    ∀ r₁ ∈ order.map (runTrial engine net faults),
      ∀ r₂ ∈ order.map (runTrial engine net faults),
        r₁.isSuccess = true → r₂.isSuccess = true → shapeOf r₁ = shapeOf r₂ := by
  intro r₁ h₁ r₂ h₂ hs₁ hs₂
  obtain ⟨t₁, -, rfl⟩ := List.mem_map.mp h₁
  obtain ⟨t₂, -, rfl⟩ := List.mem_map.mp h₂
  rw [runTrial_success_eq (runTrial_not_fault hs₁),
      runTrial_success_eq (runTrial_not_fault hs₂)]
  unfold shapeOf
  exact Prod.ext (hu (seedsFor net t₁) (seedsFor net t₂)).1
    (hu (seedsFor net t₁) (seedsFor net t₂)).2

theorem run_eq_range (engine : Engine) (net : Network)
    {n pool m : Nat} {faults : Finset Nat} {order : List Nat}
    (h : order.Perm (List.range n)) :
    run engine net n pool m faults order =
      finalize m ((List.range n).map (runTrial engine net faults)) := by
  unfold run
  apply finalize_congr
  rw [sortByIdx_map_range engine net faults h,
      sortByIdx_map_range engine net faults (List.Perm.refl (List.range n))]

theorem meanSeries_length (inc : List TrialResult) (len : Nat) :
    (meanSeries inc len).length = len := by
  simp [meanSeries]

theorem succOf_sortByIdx_length (rs : List TrialResult) :
    (succOf (sortByIdx rs)).length = (succOf rs).length := by
  unfold succOf
  rw [← List.countP_eq_length_filter, ← List.countP_eq_length_filter]
  exact (sortByIdx_perm rs).countP_eq _

theorem includedRs_length_le (rs : List TrialResult) :
    (includedRs rs).length ≤ (succOf (sortByIdx rs)).length := by
  unfold includedRs
  cases refShape rs with
  | none => simp
  | some sh => exact List.length_filter_le _ _

theorem included_range {engine : Engine} {net : Network}
    (hu : ShapeUniform engine net) (faults : Finset Nat) (n : Nat) :
    includedRs ((List.range n).map (runTrial engine net faults)) =
      ((List.range n).filter (fun t => !(decide (t ∈ faults)))).map
        (runTrial engine net faults) ∧
    shapeRejectedRs ((List.range n).map (runTrial engine net faults)) = [] := by
  obtain ⟨h₁, h₂⟩ :=
    includedRs_of_uniform (uniform_of_shapeUniform hu faults (List.range n))
  rw [h₁, h₂,
    sortByIdx_map_range engine net faults (List.Perm.refl (List.range n)),
    succ_map_range]
  exact ⟨rfl, rfl⟩

theorem failedRs_range (engine : Engine) (net : Network) (faults : Finset Nat)
    (n : Nat) :
    failedRs ((List.range n).map (runTrial engine net faults)) =
      ((List.range n).filter (fun t => decide (t ∈ faults))).map
        (runTrial engine net faults) := by
  unfold failedRs
  rw [sortByIdx_map_range engine net faults (List.Perm.refl (List.range n)),
    failed_map_range]

/-! ## Claim theorems -/

/-- C5: `derive(base_seed, trial_index, drive_name)` is a pure deterministic
function — repeated calls with the same inputs yield the same seed — and for
every fixed base seed, distinct `(trial_index, drive_name)` pairs yield
distinct derived seeds; in particular two trials of the same drive with
different trial indices get different per-trial seeds, and two drives sharing
base seed 6 (as `evdist1` and `evprox1` do in the script) get distinct seed
streams. -/
theorem derive_deterministic_collision_free :
    (∀ (b t : Nat) (n : String), derive b t n = derive b t n) ∧
    ∀ (b t₁ t₂ : Nat) (n₁ n₂ : String), ¬ (t₁ = t₂ ∧ n₁ = n₂) →
      derive b t₁ n₁ ≠ derive b t₂ n₂ := by
  refine ⟨fun _ _ _ => rfl, ?_⟩
  intro b t₁ t₂ n₁ n₂ hne h
  exact hne (derive_inj h)

/-- Witness for C5 at the script's drives: base seed 6 shared by `evdist1`
and `evprox1`, and two trial indices of the same drive. -/
theorem derive_deterministic_collision_free_witness :
    (¬ ((0 : Nat) = 0 ∧ "evdist1" = "evprox1") ∧
      derive 6 0 "evdist1" ≠ derive 6 0 "evprox1") ∧
    (¬ ((0 : Nat) = 1 ∧ "evprox1" = "evprox1") ∧
      derive 6 0 "evprox1" ≠ derive 6 1 "evprox1") :=
  ⟨⟨by decide,
    derive_deterministic_collision_free.2 6 0 0 "evdist1" "evprox1" (by decide)⟩,
   ⟨by decide,
    derive_deterministic_collision_free.2 6 0 1 "evprox1" "evprox1" (by decide)⟩⟩

/-- C10: the script calls `simulate_dipole` with the literal `n_trials=25`,
so 25 trials are always dispatched; the preceding local assignment
`n_trials = 1` is never read — the dispatch count is constant in the value of
that local variable. -/
theorem dispatch_count_literal :
    (∀ v : Nat, scriptDispatchCount v = 25) ∧
    script_n_trials = 1 ∧
    (∀ v w : Nat, scriptDispatchCount v = scriptDispatchCount w) ∧
    ∀ (engine : Engine) (v : Nat),
      ((simulate_dipole engine somatoNet (scriptDispatchCount v)).1).length = 25 := by
  refine ⟨fun _ => rfl, rfl, fun _ _ => rfl, ?_⟩
  intro engine v
  simp [simulate_dipole, scriptDispatchCount]

/-- C9: on every exit path of the pool's scope — normal completion and error
exits alike — all worker resources acquired by `start(pool_size)` are
released: the pool-event trace always nets to zero held workers, and the
trace of an error exit equals the trace of a normal exit. -/
theorem pool_scoped_release :
    ∀ (A : Type) (size avail : Nat) (body : Except AggError A) (e : AggError)
      (a : A),
      netWorkers (withPool size avail body).2 = 0 ∧
      (withPool size avail (Except.error e : Except AggError A)).2 =
        (withPool size avail (Except.ok a)).2 := by
  intro A size avail body e a
  constructor
  · unfold withPool
    by_cases h : size ≤ avail
    · rw [if_pos h]
      simp only [netWorkers, List.foldl]
      omega
    · rw [if_neg h]
      rfl
  · unfold withPool
    by_cases h : size ≤ avail
    · rw [if_pos h, if_pos h]
    · rw [if_neg h, if_neg h]

/-- C6 counterexample: the claim says all fields of `net` are unchanged by
the run, yet `simulate_dipole` populates `net.cell_response` (which the
script reads after the call at line 139) — so the post-call network differs
from the pre-call network at a concrete input. -/
theorem net_mutated_counterexample :
    (simulate_dipole toyEngine somatoNet 25).2 ≠ somatoNet := by
  intro h
  have hc := congrArg Network.cell_response h
  simp [simulate_dipole, somatoNet, Network.add_evoked_drive] at hc

/-- C6 amended: the configuration fields of the network (`params_file` and
the drives) are unchanged by the run, and the results dispatched to the
workers are computed from the configuration as it stood at dispatch time —
but `cell_response` is populated by `simulate_dipole`, so the `Network`
object as a whole is mutated by the run. -/
theorem config_fields_unchanged_cell_response_populated :
    ∀ (engine : Engine) (net : Network) (n : Nat),
      (simulate_dipole engine net n).2.params_file = net.params_file ∧
      (simulate_dipole engine net n).2.drives = net.drives ∧
      (simulate_dipole engine net n).1 =
        (List.range n).map (runTrial engine net ∅) ∧
      (simulate_dipole engine net n).2.cell_response =
        some ⟨((List.range n).map (runTrial engine net ∅)).map TrialResult.idx⟩ :=
  fun _ _ _ => ⟨rfl, rfl, rfl, rfl⟩

/-- C1: determinism of `run` on the script's network (N20 parameters with
drives `evdist1`, `evdist2`, `evprox1`) with `n_trials = 25`: for a fixed
configuration, trial count, fault set and seed policy, two executions —
whose completion orders may differ arbitrarily — produce identical
`AggregateResult`s. -/
theorem run_deterministic :
    ∀ (engine : Engine) (pool min_required : Nat) (faults : Finset Nat)
      (order₁ order₂ : List Nat),
      order₁.Perm (List.range 25) → order₂.Perm (List.range 25) →
      run engine somatoNet 25 pool min_required faults order₁ =
        run engine somatoNet 25 pool min_required faults order₂ := by
  intro engine pool m faults o₁ o₂ h₁ h₂
  rw [run_eq_range engine somatoNet h₁, run_eq_range engine somatoNet h₂]

/-- Witness for C1: two executions with opposite completion orders. -/
theorem run_deterministic_witness :
    (List.range 25).Perm (List.range 25) ∧
    ((List.range 25).reverse).Perm (List.range 25) ∧
    run toyEngine somatoNet 25 6 20 ∅ (List.range 25) =
      run toyEngine somatoNet 25 6 20 ∅ ((List.range 25).reverse) :=
  ⟨List.Perm.refl _, List.reverse_perm _,
    run_deterministic toyEngine 6 20 ∅ (List.range 25) ((List.range 25).reverse)
      (List.Perm.refl _) (List.reverse_perm _)⟩

/-- C2: aggregating a multiset of successful, equal-length trial results in
any permutation of arrival order yields the same `AggregateResult` — the
reduction depends only on the collected set of (distinctly indexed) results,
not on completion or arrival order; and `average_dipoles` itself is invariant
under permutation of its equal-shape dipole list. -/
theorem aggregate_permutation_invariant :
    (∀ (m : Nat) (rs₁ rs₂ : List TrialResult),
      rs₁.Perm rs₂ → (rs₁.map TrialResult.idx).Nodup →
      (∀ r ∈ rs₁, r.isSuccess = true) →
      (∀ r₁ ∈ rs₁, ∀ r₂ ∈ rs₁, r₁.series.length = r₂.series.length) →
      finalize m rs₁ = finalize m rs₂) ∧
    ∀ (dpls₁ dpls₂ : List (ℚ × List ℚ)),
      dpls₁.Perm dpls₂ →
      (∀ e₁ ∈ dpls₁, ∀ e₂ ∈ dpls₁, e₁.1 = e₂.1 ∧ e₁.2.length = e₂.2.length) →
      average_dipoles dpls₁ = average_dipoles dpls₂ := by
  constructor
  · intro m rs₁ rs₂ hp hn _ _
    exact finalize_congr m (sortByIdx_eq_of_perm hp hn)
  · intro dpls₁ dpls₂ hp hsh
    cases dpls₁ with
    | nil => rw [← hp.nil_eq]
    | cons d l =>
      cases dpls₂ with
      | nil => exact absurd hp.eq_nil (by simp)
      | cons d' l' =>
        have hd' : d' ∈ d :: l := hp.mem_iff.mpr (List.mem_cons_self d' l')
        have hdd := hsh d (List.mem_cons_self d l) d' hd'
        simp only [average_dipoles]
        refine Prod.ext hdd.1 ?_
        show (List.range d.2.length).map _ = (List.range d'.2.length).map _
        rw [← hdd.2]
        apply List.map_congr_left
        intro i _
        have hsum : ((d :: l).map (fun e => e.2.getD i 0)).sum =
            ((d' :: l').map (fun e => e.2.getD i 0)).sum :=
          (hp.map (fun e => e.2.getD i 0)).sum_eq
        rw [hsum, hp.length_eq]

/-- Witness for C2: two successful equal-length results aggregated in both
arrival orders, and a two-dipole list averaged in both orders. -/
theorem aggregate_permutation_invariant_witness :
    (succPair.Perm succPair.reverse ∧
      (succPair.map TrialResult.idx).Nodup ∧
      (∀ r ∈ succPair, r.isSuccess = true) ∧
      (∀ r₁ ∈ succPair, ∀ r₂ ∈ succPair,
        r₁.series.length = r₂.series.length) ∧
      finalize 1 succPair = finalize 1 succPair.reverse) ∧
    ([((1 : ℚ), [(1 : ℚ)]), (1, [3])].Perm
        ([((1 : ℚ), [(1 : ℚ)]), (1, [3])].reverse) ∧
      average_dipoles [((1 : ℚ), [(1 : ℚ)]), (1, [3])] =
        average_dipoles ([((1 : ℚ), [(1 : ℚ)]), (1, [3])].reverse)) :=
  ⟨⟨(List.reverse_perm succPair).symm, by decide, by decide, by decide,
    aggregate_permutation_invariant.1 1 succPair succPair.reverse
      (List.reverse_perm succPair).symm (by decide) (by decide) (by decide)⟩,
   ⟨(List.reverse_perm _).symm,
    aggregate_permutation_invariant.2 _ _ (List.reverse_perm _).symm (by decide)⟩⟩

/-- C4: quorum enforcement by `finalize` — with `min_required = k` and fewer
than `k` successes the aggregation fails with `InsufficientTrials`; with
exactly `k` (shape-compatible) successes it succeeds and its result is the
sample mean over all successful results, which are all included. -/
theorem quorum_enforcement :
    ∀ (k : Nat) (rs : List TrialResult),
      ((succOf rs).length < k →
        finalize k rs = Except.error AggError.InsufficientTrials) ∧
      ((∀ r₁ ∈ rs, ∀ r₂ ∈ rs, r₁.isSuccess = true → r₂.isSuccess = true →
          shapeOf r₁ = shapeOf r₂) →
        (succOf rs).length = k →
        ∃ agg, finalize k rs = Except.ok agg ∧ agg.count = k ∧
          includedRs rs = succOf (sortByIdx rs) ∧
          agg.mean = meanSeries (succOf (sortByIdx rs))
            ((refShape rs).elim 0 Prod.fst)) := by
  intro k rs
  constructor
  · intro hlt
    have hle : (includedRs rs).length < k :=
      Nat.lt_of_le_of_lt ((includedRs_length_le rs).trans
        (Nat.le_of_eq (succOf_sortByIdx_length rs))) hlt
    unfold finalize
    rw [if_pos hle]
  · intro hu hk
    obtain ⟨hinc, -⟩ := includedRs_of_uniform hu
    have hlen : (includedRs rs).length = k := by
      rw [hinc, succOf_sortByIdx_length]
      exact hk
    refine ⟨⟨meanSeries (includedRs rs) ((refShape rs).elim 0 Prod.fst),
      (refShape rs).elim 0 Prod.snd, (includedRs rs).length,
      ((failedRs rs).map TrialResult.idx).toFinset,
      ((shapeRejectedRs rs).map TrialResult.idx).toFinset⟩, ?_, hlen, hinc, ?_⟩
    · unfold finalize
      rw [if_neg (by rw [hlen]; exact Nat.lt_irrefl k)]
    · show meanSeries (includedRs rs) ((refShape rs).elim 0 Prod.fst) =
        meanSeries (succOf (sortByIdx rs)) ((refShape rs).elim 0 Prod.fst)
      rw [hinc]

/-- Witness for C4: three results with two successes — quorum 3 fails with
`InsufficientTrials`, quorum 2 succeeds with the mean over both successes. -/
theorem quorum_enforcement_witness :
    ((succOf sampleResults).length < 3 ∧
      finalize 3 sampleResults = Except.error AggError.InsufficientTrials) ∧
    ((∀ r₁ ∈ sampleResults, ∀ r₂ ∈ sampleResults, r₁.isSuccess = true →
        r₂.isSuccess = true → shapeOf r₁ = shapeOf r₂) ∧
      (succOf sampleResults).length = 2 ∧
      ∃ agg, finalize 2 sampleResults = Except.ok agg ∧ agg.count = 2 ∧
        includedRs sampleResults = succOf (sortByIdx sampleResults) ∧
        agg.mean = meanSeries (succOf (sortByIdx sampleResults))
          ((refShape sampleResults).elim 0 Prod.fst)) :=
  ⟨⟨by decide, (quorum_enforcement 3 sampleResults).1 (by decide)⟩,
   ⟨by decide, by decide,
    (quorum_enforcement 2 sampleResults).2 (by decide) (by decide)⟩⟩

/-- C3: fault containment — when the worker of exactly one trial `f` of `n`
crashes, the crash surfaces as a `failed` `TrialResult` for that job only,
the remaining `n - 1` jobs are processed to success, no per-trial failure
escapes `run` as an error, and `run` returns an `AggregateResult` over the
`n - 1` successful trials whenever `min_required ≤ n - 1`. -/
theorem single_crash_contained :
    ∀ (engine : Engine) (net : Network) (n pool m f : Nat) (order : List Nat),
      ShapeUniform engine net → order.Perm (List.range n) → f < n →
      m ≤ n - 1 →
      failedRs (order.map (runTrial engine net {f})) =
        [⟨f, 0, [], Status.failed⟩] ∧
      ∃ agg, run engine net n pool m {f} order = Except.ok agg ∧
        agg.count = n - 1 ∧ agg.failed = {f} ∧ agg.shapeMismatches = ∅ := by
  intro engine net n pool m f order hu hperm hf hm
  have hsingle : runTrial engine net {f} f = ⟨f, 0, [], Status.failed⟩ := by
    unfold runTrial
    rw [if_pos (Finset.mem_singleton_self f)]
  have hfailed : failedRs (order.map (runTrial engine net {f})) =
      [⟨f, 0, [], Status.failed⟩] := by
    unfold failedRs
    rw [sortByIdx_map_range engine net {f} hperm, failed_map_range,
      range_filter_eq_singleton hf]
    simp only [List.map_cons, List.map_nil]
    rw [hsingle]
  refine ⟨hfailed, ?_⟩
  rw [run_eq_range engine net hperm]
  obtain ⟨hinc, hrej⟩ := included_range hu {f} n
  have hlen :
      (includedRs ((List.range n).map (runTrial engine net {f}))).length =
        n - 1 := by
    rw [hinc, List.length_map, range_filter_ne_length hf]
  refine ⟨⟨meanSeries (includedRs ((List.range n).map (runTrial engine net {f})))
      ((refShape ((List.range n).map (runTrial engine net {f}))).elim 0 Prod.fst),
    (refShape ((List.range n).map (runTrial engine net {f}))).elim 0 Prod.snd,
    (includedRs ((List.range n).map (runTrial engine net {f}))).length,
    ((failedRs ((List.range n).map (runTrial engine net {f}))).map
      TrialResult.idx).toFinset,
    ((shapeRejectedRs ((List.range n).map (runTrial engine net {f}))).map
      TrialResult.idx).toFinset⟩, ?_, hlen, ?_, ?_⟩
  · unfold finalize
    rw [if_neg (by rw [hlen]; omega)]
  · show ((failedRs ((List.range n).map (runTrial engine net {f}))).map
      TrialResult.idx).toFinset = {f}
    rw [failedRs_range, range_filter_eq_singleton hf]
    simp only [List.map_cons, List.map_nil]
    rw [hsingle]
    rfl
  · show ((shapeRejectedRs ((List.range n).map (runTrial engine net {f}))).map
      TrialResult.idx).toFinset = ∅
    rw [hrej]
    rfl

/-- Witness for C3: three trials, worker of trial 1 crashes, quorum 2. -/
theorem single_crash_contained_witness :
    ShapeUniform toyEngine somatoNet ∧
    (List.range 3).Perm (List.range 3) ∧ 1 < 3 ∧ 2 ≤ 3 - 1 ∧
    (failedRs ((List.range 3).map (runTrial toyEngine somatoNet {1})) =
        [⟨1, 0, [], Status.failed⟩] ∧
      ∃ agg, run toyEngine somatoNet 3 6 2 {1} (List.range 3) = Except.ok agg ∧
        agg.count = 3 - 1 ∧ agg.failed = {1} ∧ agg.shapeMismatches = ∅) :=
  ⟨fun _ _ => ⟨rfl, rfl⟩, List.Perm.refl _, by decide, by decide,
    single_crash_contained toyEngine somatoNet 3 6 2 1 (List.range 3)
      (fun _ _ => ⟨rfl, rfl⟩) (List.Perm.refl _) (by decide) (by decide)⟩

theorem finalize_range_no_fault {engine : Engine} {net : Network}
    (hu : ShapeUniform engine net) (n m : Nat) (hm : m ≤ n) (hn : 0 < n) :
    ∃ agg,
      finalize m ((List.range n).map (runTrial engine net ∅)) = Except.ok agg ∧
      agg.count = n ∧ agg.failed = ∅ ∧
      agg.mean.length = (engine net (seedsFor net 0)).2.length ∧
      agg.dt = (engine net (seedsFor net 0)).1 := by
  obtain ⟨hinc, hrej⟩ := included_range hu ∅ n
  rw [range_filter_none] at hinc
  have hlen :
      (includedRs ((List.range n).map (runTrial engine net ∅))).length = n := by
    rw [hinc, List.length_map, List.length_range]
  have href : refShape ((List.range n).map (runTrial engine net ∅)) =
      some ((engine net (seedsFor net 0)).2.length,
        (engine net (seedsFor net 0)).1) := by
    unfold refShape
    rw [sortByIdx_map_range engine net ∅ (List.Perm.refl (List.range n)),
      succ_map_range, range_filter_none, List.head?_map]
    obtain ⟨k, rfl⟩ : ∃ k, n = k + 1 := ⟨n - 1, by omega⟩
    rw [List.range_succ_eq_map]
    simp only [List.head?_cons, Option.map_some']
    rw [runTrial_success_eq (Finset.not_mem_empty 0)]
    rfl
  refine ⟨⟨meanSeries (includedRs ((List.range n).map (runTrial engine net ∅)))
      ((refShape ((List.range n).map (runTrial engine net ∅))).elim 0 Prod.fst),
    (refShape ((List.range n).map (runTrial engine net ∅))).elim 0 Prod.snd,
    (includedRs ((List.range n).map (runTrial engine net ∅))).length,
    ((failedRs ((List.range n).map (runTrial engine net ∅))).map
      TrialResult.idx).toFinset,
    ((shapeRejectedRs ((List.range n).map (runTrial engine net ∅))).map
      TrialResult.idx).toFinset⟩, ?_, hlen, ?_, ?_, ?_⟩
  · unfold finalize
    rw [if_neg (by rw [hlen]; omega)]
  · show ((failedRs ((List.range n).map (runTrial engine net ∅))).map
      TrialResult.idx).toFinset = ∅
    rw [failedRs_range,
      show (List.range n).filter (fun t => decide (t ∈ (∅ : Finset Nat))) = []
        from List.filter_eq_nil_iff.mpr (fun a _ => by simp)]
    rfl
  · show (meanSeries (includedRs ((List.range n).map (runTrial engine net ∅)))
      ((refShape ((List.range n).map (runTrial engine net ∅))).elim 0
        Prod.fst)).length =
      (engine net (seedsFor net 0)).2.length
    rw [meanSeries_length, href]
    rfl
  · show (refShape ((List.range n).map (runTrial engine net ∅))).elim 0
      Prod.snd = (engine net (seedsFor net 0)).1
    rw [href]
    rfl

/-- C7: the example scenario — the script's network (drives with base seed 6
and one spike per event), `n_trials = 25`, `pool_size = 6`,
`min_required = 20`, no faults — `run` returns an `AggregateResult` with
`count = 25`, no failures, and a mean series of the same length and sample
step as a single trial's series. -/
theorem somato_scenario_counts :
    ∀ (engine : Engine) (order : List Nat),
      ShapeUniform engine somatoNet → order.Perm (List.range 25) →
      ∃ agg, run engine somatoNet 25 6 20 ∅ order = Except.ok agg ∧
        agg.count = 25 ∧ agg.failed = ∅ ∧
        agg.mean.length = (engine somatoNet (seedsFor somatoNet 0)).2.length ∧
        agg.dt = (engine somatoNet (seedsFor somatoNet 0)).1 := by
  intro engine order hu hperm
  rw [run_eq_range engine somatoNet hperm]
  exact finalize_range_no_fault hu 25 20 (by omega) (by omega)

/-- Witness for C7 with a concrete engine and a reversed completion order. -/
theorem somato_scenario_counts_witness :
    ShapeUniform toyEngine somatoNet ∧
    ((List.range 25).reverse).Perm (List.range 25) ∧
    ∃ agg,
      run toyEngine somatoNet 25 6 20 ∅ ((List.range 25).reverse) =
        Except.ok agg ∧
      agg.count = 25 ∧ agg.failed = ∅ ∧
      agg.mean.length = (toyEngine somatoNet (seedsFor somatoNet 0)).2.length ∧
      agg.dt = (toyEngine somatoNet (seedsFor somatoNet 0)).1 :=
  ⟨fun _ _ => ⟨rfl, rfl⟩, List.reverse_perm _,
    somato_scenario_counts toyEngine ((List.range 25).reverse)
      (fun _ _ => ⟨rfl, rfl⟩) (List.reverse_perm _)⟩

/-- C8: a successful result whose series shape (length or sample step)
differs from the reference shape of the aggregation is rejected: it is
excluded from the included set (so it is neither truncated nor padded into
the mean), recorded as a `ShapeMismatch` in any aggregate the aggregator
produces, and all results actually included share one identical shape. -/
theorem shape_mismatch_rejected :
    ∀ (m : Nat) (rs : List TrialResult) (r : TrialResult) (sh : Nat × ℚ),
      r ∈ rs → r.isSuccess = true → refShape rs = some sh → shapeOf r ≠ sh →
      r ∈ shapeRejectedRs rs ∧ r ∉ includedRs rs ∧
      (∀ agg, finalize m rs = Except.ok agg → r.idx ∈ agg.shapeMismatches) ∧
      ∀ r₁ ∈ includedRs rs, ∀ r₂ ∈ includedRs rs, shapeOf r₁ = shapeOf r₂ := by
  intro m rs r sh hmem hsucc href hne
  have hrs : r ∈ succOf (sortByIdx rs) :=
    List.mem_filter.mpr ⟨(sortByIdx_perm rs).mem_iff.mpr hmem, hsucc⟩
  have hrej : r ∈ shapeRejectedRs rs := by
    unfold shapeRejectedRs
    rw [href]
    exact List.mem_filter.mpr ⟨hrs, by simp [hne]⟩
  have hninc : r ∉ includedRs rs := by
    unfold includedRs
    rw [href]
    intro hcon
    exact hne (by simpa using (List.mem_filter.mp hcon).2)
  refine ⟨hrej, hninc, ?_, ?_⟩
  · intro agg hok
    unfold finalize at hok
    by_cases hq : (includedRs rs).length < m
    · rw [if_pos hq] at hok
      exact absurd hok (by simp)
    · rw [if_neg hq] at hok
      have hagg := Except.ok.inj hok
      rw [← hagg]
      exact List.mem_toFinset.mpr (List.mem_map_of_mem TrialResult.idx hrej)
  · intro r₁ h₁ r₂ h₂
    unfold includedRs at h₁ h₂
    rw [href] at h₁ h₂
    have e₁ : shapeOf r₁ = sh := by simpa using (List.mem_filter.mp h₁).2
    have e₂ : shapeOf r₂ = sh := by simpa using (List.mem_filter.mp h₂).2
    rw [e₁, e₂]

/-- Witness for C8: two successes whose series lengths differ — the
second-indexed one disagrees with the reference shape and is rejected. -/
theorem shape_mismatch_rejected_witness :
    (⟨1, 1, [5], Status.success⟩ : TrialResult) ∈ mixedShapeResults ∧
    (⟨1, 1, [5], Status.success⟩ : TrialResult).isSuccess = true ∧
    refShape mixedShapeResults = some (2, 1) ∧
    shapeOf (⟨1, 1, [5], Status.success⟩ : TrialResult) ≠ (2, 1) ∧
    ((⟨1, 1, [5], Status.success⟩ : TrialResult) ∈
        shapeRejectedRs mixedShapeResults ∧
      (⟨1, 1, [5], Status.success⟩ : TrialResult) ∉
        includedRs mixedShapeResults ∧
      (∀ agg, finalize 1 mixedShapeResults = Except.ok agg →
        (⟨1, 1, [5], Status.success⟩ : TrialResult).idx ∈ agg.shapeMismatches) ∧
      ∀ r₁ ∈ includedRs mixedShapeResults, ∀ r₂ ∈ includedRs mixedShapeResults,
        shapeOf r₁ = shapeOf r₂) :=
  ⟨by decide, by decide, by decide, by decide,
    shape_mismatch_rejected 1 mixedShapeResults ⟨1, 1, [5], Status.success⟩
      (2, 1) (by decide) (by decide) (by decide) (by decide)⟩
